import Mathlib

/-! Shallow embedding of src/Program/Formatters/formatter_mathematica.py
    (class MathematicaFormatter). Python strings are modelled as Lean
    strings, tuples of pairs as lists of pairs, dicts as association
    lists kept in insertion order (the order a Python dict iterates in),
    and raised exceptions as Except.error values. -/

namespace COOx

/-- A site entry (particle label, lattice index): one element of a state
tuple ((particle0, index0), ..., (particleN, indexN)). -/
abbrev Entry := String × Int

/-- A state: an ordered sequence of entries. -/
abbrev State := List Entry

/-- A weighted state (state, multiplicity) as stored in the create and
decay lists. -/
abbrev WeightedState := State × Int

/-- A create or decay dictionary: rate key to list of weighted states. -/
abbrev RateMap := List (String × List WeightedState)

/-- An equation record, the tuple (state, create dict, decay dict). -/
abbrev EquationR := State × RateMap × RateMap

/-- Python str.split for a one-character separator: splits at every
occurrence, keeps empty pieces, and always returns at least one piece. -/
def splitOnChar (c : Char) : List Char → List (List Char)
  | [] => [[]]
  | a :: as =>
    if a = c then [] :: splitOnChar c as
    else
      match splitOnChar c as with
      | [] => [[a]]
      | g :: gs => (a :: g) :: gs

/-- Python sep.join(pieces). -/
def pyJoin (sep : String) : List String → String
  | [] => ""
  | [s] => s
  | s :: rest => s ++ sep ++ pyJoin sep rest

/-- Python str.strip(): drop leading and trailing whitespace. -/
def pyStrip (s : String) : String :=
  String.mk (((s.data.dropWhile Char.isWhitespace).reverse.dropWhile Char.isWhitespace).reverse)

/-- Python str.upper(), character by character (the data here is ASCII). -/
def pyUpper (s : String) : String := String.mk (s.data.map Char.toUpper)

/-- Minimal model of a dynamically typed Python value passed as a rate. -/
inductive PyObj where
  | pyStr (s : String)
  | pyInt (n : Int)
  | pyNone

/-- Core of MathematicaFormatter.get_rate on an actual string:
join the pieces of rate.split on the dots, then upper-case. -/
def get_rate_str (rate : String) : String :=
  pyUpper (pyJoin "" ((splitOnChar '.' rate.data).map String.mk))

/-- MathematicaFormatter.get_rate: validate_rate raises TypeError unless
the argument is a str, then the dots are removed and the rest is
upper-cased. -/
def get_rate : PyObj → Except String String
  | .pyStr s => .ok (get_rate_str s)
  | _ => .error "TypeError: The rate parameter must be string."

/-- MathematicaFormatter.get_rate_value: the rate representation plus
the text " = " plus str(value). -/
def get_rate_value (rate : PyObj) (value : Int) : Except String String := do
  let rate_string ← get_rate rate
  return rate_string ++ " = " ++ toString value

/-- format_entry: the label directly followed by the index. -/
def format_entry (entry0 : Entry) : String := entry0.1 ++ toString entry0.2

/-- get_state_string: the letter P, the joined entries, then [t]. -/
def get_state_string (state0 : State) : String :=
  "P" ++ pyJoin "" (state0.map format_entry) ++ "[t]"

/-- get_numerator: the contiguous windows state[i : i + order]. The
source breaks out of its loop at the first i with i + order > len(state);
since i + order grows with i, this equals keeping every such i. -/
def get_numerator (state : State) (order : Nat) : List State :=
  (List.range state.length).filterMap fun i =>
    if i + order ≤ state.length then some ((state.drop i).take order) else none

/-- The set intersection list(set(a).intersection(set(b))): the common
entries. CPython emits them in hash order, which no pure model fixes;
the embedding uses first-operand order without duplicates, which has
exactly the same members. -/
def pyIntersect (a b : List Entry) : List Entry :=
  (a.filter fun e => decide (e ∈ b)).dedup

/-- get_denominator: pairwise intersections of the numerator windows in
(i, j) scan order with j > i, keeping the non-empty ones. -/
def get_denominator (numerator_states : List State) : List State :=
  numerator_states.enum.flatMap fun p =>
    numerator_states.enum.filterMap fun q =>
      if q.1 ≤ p.1 then none
      else
        let inter := pyIntersect p.2 q.2
        if 0 < inter.length then some inter else none

/-- get_state: the exact render at order 0 or order ≥ len(state),
otherwise the mean-field numerator and denominator render. The source
also validates order ≥ 0 and the two-element entry shapes, both
guaranteed here by the types. -/
def get_state (state : State) (order : Nat) : String :=
  if order = 0 ∨ state.length ≤ order then
    get_state_string state
  else
    let numerator_states := get_numerator state order
    let denominator_states := get_denominator numerator_states
    let numerator_strings := numerator_states.map get_state_string
    let state_string := pyJoin " " numerator_strings
    if 0 < denominator_states.length then
      state_string ++ "/(" ++ pyJoin " " (denominator_states.map get_state_string) ++ ")"
    else
      state_string

/-- The longest leading run of numeric characters (str.isnumeric; the
data here is ASCII digits). -/
def leadingDigits : List Char → List Char
  | [] => []
  | c :: cs => if c.isDigit then c :: leadingDigits cs else []

/-- get_prefactor: split a state string into its numeric coefficient and
the rest; when the whole string is numeric the source returns the whole
string in both components. -/
def get_prefactor (state_string1 : String) : String × String :=
  if (leadingDigits state_string1.data).length < state_string1.data.length then
    (String.mk (leadingDigits state_string1.data),
     String.mk (state_string1.data.drop (leadingDigits state_string1.data).length))
  else
    (String.mk (leadingDigits state_string1.data), state_string1)

/-- format_state_multiplicity: the multiplicity, when above one, then
the state render. The source checks len(state0) == 2, which holds of
every typed pair; the multiplicity value is never validated. -/
def format_state_multiplicity (order : Nat) (state0 : WeightedState) : String :=
  (if 1 < state0.2 then toString state0.2 else "") ++ get_state state0.1 order

/-- format_create_decay_single: a create-only or decay-only clause. -/
def format_create_decay_single (key0 : String) (states0 : List String) (decay : Bool) : String :=
  let string_key := get_rate_str key0
  let head0 := if decay then "-" else "+"
  match states0 with
  | [state0] =>
    let pr := get_prefactor state0
    head0 ++ pr.1 ++ " " ++ string_key ++ " " ++ pr.2
  | _ => head0 ++ string_key ++ " (" ++ pyJoin "+" states0 ++ ")"

/-- format_create_decay: a clause with create and decay states sharing
one rate factor. -/
def format_create_decay (key0 : String) (create_states0 decay_states0 : List String) : String :=
  let string_key := get_rate_str key0
  let create_string0 := pyJoin "+" create_states0
  let decay_string0 := "-" ++ pyJoin "-" decay_states0
  "+" ++ string_key ++ " (" ++ create_string0 ++ decay_string0 ++ ")"

/-- format_equation_string: strip, remember a genuine leading minus of
the raw string, drop one leading sign of the stripped string, re-space
the remaining signs, and put the remembered minus back with nothing in
between. Indexing [0] raises IndexError on an empty string, modelled as
an error value. -/
def format_equation_string (equation_string0 : String) : Except String String := do
  let eq00 := pyStrip equation_string0
  let c0 ← match equation_string0.data with
    | [] => Except.error "IndexError: string index out of range"
    | c :: _ => Except.ok c
  let first_character0 := if c0 = '-' then "-" else ""
  let d0 ← match eq00.data with
    | [] => Except.error "IndexError: string index out of range"
    | c :: _ => Except.ok c
  let eq01 := if d0 = '-' ∨ d0 = '+' then String.mk (eq00.data.drop 1) else eq00
  let eq02 := pyStrip eq01
  let eq03 := pyJoin " + " ((splitOnChar '+' eq02.data).map String.mk)
  let eq04 := pyJoin " - " ((splitOnChar '-' eq03.data).map String.mk)
  return first_character0 ++ eq04

/-- The comparison set(keys1) == set(keys2) made by validate_equation. -/
def sameKeySets (k1 k2 : List String) : Bool :=
  (k1.all fun a => k2.contains a) && (k2.all fun a => k1.contains a)

/-- validate_equation: the tuple, length, state and dict type checks
hold of every typed record; the key-set comparison remains. The source
message also interpolates both key sets. -/
def validate_equation (equation : EquationR) : Except String Unit :=
  if sameKeySets (equation.2.1.map Prod.fst) (equation.2.2.map Prod.fst) then
    Except.ok ()
  else
    Except.error "ValueError: Both Dictionaries must have the same keys"

/-- get_equation: validate, then accumulate one clause per rate key of
the create dict (decay-only, create-only, both, or nothing), then
re-space, then prepend the differential form. -/
def get_equation (equation : EquationR) (order : Nat) : Except String String := do
  let _ ← validate_equation equation
  let keys := equation.2.1.map Prod.fst
  let diff_state := "D[" ++ get_state equation.1 0 ++ ", t] == "
  let equation_string := keys.foldl (fun acc key =>
    let create_states := ((List.lookup key equation.2.1).getD []).map (format_state_multiplicity order)
    let decay_states := ((List.lookup key equation.2.2).getD []).map (format_state_multiplicity order)
    if 0 < decay_states.length ∧ create_states.length = 0 then
      acc ++ format_create_decay_single key decay_states true
    else if decay_states.length = 0 ∧ 0 < create_states.length then
      acc ++ format_create_decay_single key create_states false
    else if 0 < decay_states.length ∧ 0 < create_states.length then
      acc ++ format_create_decay key create_states decay_states
    else acc) ""
  let formatted ← format_equation_string equation_string
  return diff_state ++ formatted

/-- Decidable equality for the Except values the embedding returns. -/
instance : DecidableEq (Except String String) := fun
  | .ok a, .ok b =>
    if h : a = b then isTrue (by rw [h]) else isFalse (fun hh => h (Except.ok.inj hh))
  | .ok _, .error _ => isFalse Except.noConfusion
  | .error _, .ok _ => isFalse Except.noConfusion
  | .error a, .error b =>
    if h : a = b then isTrue (by rw [h]) else isFalse (fun hh => h (Except.error.inj hh))

/-- The equation record of the first end-to-end example: target state
(("a",0),("b",1)), create dict with the single key k1 carrying that
state with multiplicity 2, decay dict with k1 carrying nothing. -/
def exampleCreateRecord : EquationR :=
  ([("a", 0), ("b", 1)],
   [("k1", [([("a", 0), ("b", 1)], 2)])],
   [("k1", [])])

/-- The equation record of the second end-to-end example: target state
(("a",0),("b",1)), create dict with k1 carrying nothing, decay dict with
k1 carrying the target state with multiplicity 1. -/
def exampleDecayRecord : EquationR :=
  ([("a", 0), ("b", 1)],
   [("k1", [])],
   [("k1", [([("a", 0), ("b", 1)], 1)])])

/-- An equation record whose every rate key carries an empty create list
and an empty decay list. -/
def allEmptyRecord : EquationR :=
  ([("a", 0)], [("k1", [])], [("k1", [])])

/-- C1 counterexample: on the first example record at order 0 the
assembled string is not the claimed one with a leading plus, because the
normalization step drops the leading bare plus and restores nothing. -/
theorem C1_counterexample :
    get_equation exampleCreateRecord 0 ≠ Except.ok "D[Pa0b1[t], t] == + 2 K1 Pa0b1[t]" := by
  decide

/-- C1 amended: on the first example record at order 0 the assembled
string is exactly the one with the leading bare plus dropped, the
multiplicity 2 standing directly before the rate token. -/
theorem C1_amended :
    get_equation exampleCreateRecord 0 = Except.ok "D[Pa0b1[t], t] == 2 K1 Pa0b1[t]" := by
  decide

/-- C2 counterexample: on the second example record at order 0 the
assembled string is not the claimed one with a space after the leading
minus, because the preserved minus is put back with nothing after it. -/
theorem C2_counterexample :
    get_equation exampleDecayRecord 0 ≠ Except.ok "D[Pa0b1[t], t] == - K1 Pa0b1[t]" := by
  decide

/-- C2 amended: on the second example record at order 0 the assembled
string carries the preserved leading minus directly against the rate
token. -/
theorem C2_amended :
    get_equation exampleDecayRecord 0 = Except.ok "D[Pa0b1[t], t] == -K1 Pa0b1[t]" := by
  decide

/-- C3: a valid record in which every rate key has an empty create list
and an empty decay list makes the clause accumulator empty, and indexing
its first character inside format_equation_string raises IndexError
instead of returning a string. -/
theorem C3_empty_record_raises :
    get_equation allEmptyRecord 0 = Except.error "IndexError: string index out of range" := by
  decide

/-- The key-set comparison of validate_equation agrees with equality of
the key sets. -/
theorem sameKeySets_iff (k1 k2 : List String) :
    sameKeySets k1 k2 = true ↔ k1.toFinset = k2.toFinset := by
  simp only [sameKeySets, Bool.and_eq_true, List.all_eq_true, List.contains, List.elem_iff,
    Finset.ext_iff, List.mem_toFinset]
  constructor
  · rintro ⟨h1, h2⟩ a
    exact ⟨fun ha => h1 a ha, fun ha => h2 a ha⟩
  · intro h
    exact ⟨fun a ha => (h a).mp ha, fun a ha => (h a).mpr ha⟩

/-- C4: an equation record whose create dict and decay dict have
different key sets always fails validation inside get_equation, whatever
the listed states are, and the result is the validation error alone, so
no partial output is produced. -/
theorem C4_keyset_error (equation : EquationR) (order : Nat)
    (h : (equation.2.1.map Prod.fst).toFinset ≠ (equation.2.2.map Prod.fst).toFinset) :
    get_equation equation order =
      Except.error "ValueError: Both Dictionaries must have the same keys" := by
  have hb : sameKeySets (equation.2.1.map Prod.fst) (equation.2.2.map Prod.fst) = false := by
    cases hb : sameKeySets (equation.2.1.map Prod.fst) (equation.2.2.map Prod.fst)
    · rfl
    · exact absurd ((sameKeySets_iff _ _).mp hb) h
  unfold get_equation validate_equation
  rw [if_neg (by simp [hb])]
  rfl

/-- C4 witness: the theorem instantiated at a record whose create dict
has key k1 with an empty list and whose decay dict has no key at all,
at order 5. -/
theorem C4_witness :
    get_equation ([(("a" : String), (0 : Int))], [("k1", [])], []) 5 =
      Except.error "ValueError: Both Dictionaries must have the same keys" :=
  C4_keyset_error _ 5 (by decide)

/-- C7: at order 0 or order at least the state length, get_state renders
the state exactly: the letter P, each label directly followed by its
index in the given entry order, then the suffix [t], with no mean-field
reduction. -/
theorem C7_exact_render (state : State) (k : Nat) (h : k = 0 ∨ state.length ≤ k) :
    get_state state k = "P" ++ pyJoin "" (state.map fun e => e.1 ++ toString e.2) ++ "[t]" := by
  unfold get_state
  rw [if_pos h]
  rfl

/-- C7 witness: the theorem instantiated at the state (("a",0),("b",1))
and order 0. -/
theorem C7_witness :
    get_state [(("a" : String), (0 : Int)), ("b", 1)] 0 =
      "P" ++ pyJoin ""
        (([(("a" : String), (0 : Int)), ("b", 1)] : State).map fun e => e.1 ++ toString e.2) ++
      "[t]" :=
  C7_exact_render _ 0 (Or.inl rfl)

/-- C10: a weighted state whose multiplicity is at most one, zero and
negative values included, is rendered with no numeric prefix and no
error, exactly as multiplicity one is; only the two-element pair shape
is ever checked. -/
theorem C10_nonpositive_multiplicity (s : State) (m : Int) (hm : m ≤ 1) (order : Nat) :
    format_state_multiplicity order (s, m) = get_state s order ∧
    format_state_multiplicity order (s, m) = format_state_multiplicity order (s, 1) := by
  unfold format_state_multiplicity
  have h : ¬ (1 < m) := not_lt.mpr hm
  simp [h]

/-- C10 witness: the theorem instantiated at multiplicity -2. -/
theorem C10_witness :
    format_state_multiplicity 0 ([(("a" : String), (0 : Int))], -2) =
      get_state [(("a" : String), (0 : Int))] 0 ∧
    format_state_multiplicity 0 ([(("a" : String), (0 : Int))], -2) =
      format_state_multiplicity 0 ([(("a" : String), (0 : Int))], 1) :=
  C10_nonpositive_multiplicity _ _ (by decide) 0

/-- Splitting never returns an empty list of pieces. -/
theorem splitOnChar_ne_nil (c : Char) (l : List Char) : splitOnChar c l ≠ [] := by
  cases l with
  | nil => simp [splitOnChar]
  | cons a as =>
    unfold splitOnChar
    by_cases hac : a = c
    · simp [hac]
    · rw [if_neg hac]
      cases hs : splitOnChar c as <;> simp

/-- Joining the pieces of a one-character split removes exactly the
occurrences of that character. -/
theorem join_splitOnChar (c : Char) (l : List Char) :
    (splitOnChar c l).flatten = l.filter fun a => decide (a ≠ c) := by
  induction l with
  | nil => rfl
  | cons a as ih =>
    unfold splitOnChar
    by_cases hac : a = c
    · rw [if_pos hac]
      simp [hac, ih]
    · rw [if_neg hac]
      cases hs : splitOnChar c as with
      | nil => exact absurd hs (splitOnChar_ne_nil c as)
      | cons g gs =>
        have hjoin : (splitOnChar c as).flatten = as.filter fun a => decide (a ≠ c) := ih
        rw [hs] at hjoin
        simp only [List.flatten_cons] at hjoin
        have hne : decide (a ≠ c) = true := by simp [hac]
        simp only [List.flatten_cons, List.cons_append, List.filter_cons, hne, if_true]
        exact congrArg (List.cons a) hjoin

/-- Joining strings made from character lists with the empty separator
concatenates the character lists. -/
theorem pyJoin_empty_mk (groups : List (List Char)) :
    pyJoin "" (groups.map String.mk) = String.mk groups.flatten := by
  induction groups with
  | nil => rfl
  | cons g gs ih =>
    cases gs with
    | nil => apply String.ext; simp [pyJoin]
    | cons g2 rest =>
      apply String.ext
      have ihd := congrArg String.data ih
      simp only [pyJoin, List.map_cons, String.data_append] at ihd ⊢
      simp [ihd]

/-- The dot-removing, upper-casing core of get_rate in closed form. -/
theorem get_rate_str_eq (r : String) :
    get_rate_str r =
      String.mk ((r.data.filter fun a => decide (a ≠ '.')).map Char.toUpper) := by
  unfold get_rate_str
  rw [pyJoin_empty_mk, join_splitOnChar]
  rfl

/-- C9: a string rate is rendered by removing every dot and upper-casing
what remains, a non-string rate is a type error, and a string rate with
a value renders as the rate, an equals sign, and the printed value. -/
theorem C9_rate_render (r : String) (v : PyObj) (hv : ∀ s, v ≠ PyObj.pyStr s) (value : Int) :
    get_rate (.pyStr r) =
      Except.ok (String.mk ((r.data.filter fun a => decide (a ≠ '.')).map Char.toUpper)) ∧
    (∃ e, get_rate v = Except.error e) ∧
    get_rate_value (.pyStr r) value =
      Except.ok
        (String.mk ((r.data.filter fun a => decide (a ≠ '.')).map Char.toUpper) ++
          " = " ++ toString value) := by
  refine ⟨?_, ?_, ?_⟩
  · rw [show get_rate (.pyStr r) = Except.ok (get_rate_str r) from rfl, get_rate_str_eq]
  · cases v with
    | pyStr s => exact absurd rfl (hv s)
    | pyInt n => exact ⟨_, rfl⟩
    | pyNone => exact ⟨_, rfl⟩
  · rw [show get_rate_value (.pyStr r) value =
        Except.ok (get_rate_str r ++ " = " ++ toString value) from rfl, get_rate_str_eq]

/-- C9 witness: the theorem instantiated at the rate "k1.x", the
non-string value 3, and the rate value 7. -/
theorem C9_witness :
    get_rate (.pyStr "k1.x") =
      Except.ok
        (String.mk ((("k1.x" : String).data.filter fun a => decide (a ≠ '.')).map
          Char.toUpper)) ∧
    (∃ e, get_rate (.pyInt 3) = Except.error e) ∧
    get_rate_value (.pyStr "k1.x") 7 =
      Except.ok
        (String.mk ((("k1.x" : String).data.filter fun a => decide (a ≠ '.')).map
          Char.toUpper) ++ " = " ++ toString (7 : Int)) :=
  C9_rate_render "k1.x" (.pyInt 3) (fun _ h => PyObj.noConfusion h) 7

/-- The digit character of a remainder below ten is a decimal digit. -/
theorem digitChar_isDigit (n : Nat) (h : n < 10) : (Nat.digitChar n).isDigit = true := by
  interval_cases n <;> decide

/-- Every character the base-ten digit writer produces is a decimal
digit, the accumulator included. -/
theorem toDigitsCore_digits (fuel : Nat) :
    ∀ (n : Nat) (acc : List Char), (∀ c ∈ acc, c.isDigit = true) →
      ∀ c ∈ Nat.toDigitsCore 10 fuel n acc, c.isDigit = true := by
  induction fuel with
  | zero => intro n acc hacc c hc; exact hacc c hc
  | succ fuel ih =>
    intro n acc hacc c hc
    simp only [Nat.toDigitsCore] at hc
    have hd : (Nat.digitChar (n % 10)).isDigit = true :=
      digitChar_isDigit _ (Nat.mod_lt _ (by norm_num))
    have hstep : ∀ d ∈ Nat.digitChar (n % 10) :: acc, d.isDigit = true := by
      intro d hdm
      rcases List.mem_cons.mp hdm with rfl | hm
      · exact hd
      · exact hacc d hm
    by_cases h0 : n / 10 = 0
    · rw [if_pos h0] at hc
      exact hstep c hc
    · rw [if_neg h0] at hc
      exact ih _ _ hstep c hc

/-- The printed form of a non-negative integer is all decimal digits. -/
theorem toString_int_digits (m : Int) (hm : 0 ≤ m) :
    ∀ c ∈ (toString m).data, c.isDigit = true := by
  obtain ⟨n, rfl⟩ := Int.eq_ofNat_of_zero_le hm
  intro c hc
  have hdata : (toString (n : Int)).data = Nat.toDigits 10 n := rfl
  rw [hdata] at hc
  exact toDigitsCore_digits (n + 1) n [] (by simp) c hc

/-- The leading digit scan passes over an all-digit block. -/
theorem leadingDigits_append (l1 l2 : List Char) (h1 : ∀ c ∈ l1, c.isDigit = true) :
    leadingDigits (l1 ++ l2) = l1 ++ leadingDigits l2 := by
  induction l1 with
  | nil => rfl
  | cons c cs ih =>
    have hcs := ih fun d hd => h1 d (by simp [hd])
    simp only [List.cons_append, leadingDigits, h1 c (by simp), if_true, List.append_eq, hcs]

/-- The leading digit scan stops at a non-digit first character. -/
theorem leadingDigits_nondigit (c : Char) (t : List Char) (hc : c.isDigit = false) :
    leadingDigits (c :: t) = [] := by
  simp [leadingDigits, hc]

/-- get_prefactor splits an all-digit coefficient from a rest that
starts with a non-digit. -/
theorem get_prefactor_split (pre rest : String)
    (hpre : ∀ c ∈ pre.data, c.isDigit = true)
    (c : Char) (t : List Char) (hrest : rest.data = c :: t) (hc : c.isDigit = false) :
    get_prefactor (pre ++ rest) = (pre, rest) := by
  have hld : leadingDigits (pre ++ rest).data = pre.data := by
    rw [String.data_append, hrest, leadingDigits_append _ _ hpre,
      leadingDigits_nondigit c t hc, List.append_nil]
  have hlt : (leadingDigits (pre ++ rest).data).length < (pre ++ rest).data.length := by
    rw [hld, String.data_append, hrest]
    simp
  unfold get_prefactor
  rw [if_pos hlt, hld]
  have hdrop : List.drop pre.data.length (pre ++ rest).data = rest.data := by
    rw [String.data_append]
    exact List.drop_left _ _
  rw [hdrop]

/-- A lemma on window counts: filtering the windows whose right edge
fits yields n - k + 1 of them. -/
theorem range_window_length {α : Type} (n k : Nat) (f : Nat → α) (hk : 1 ≤ k) (hkn : k ≤ n) :
    ((List.range n).filterMap fun i => if i + k ≤ n then some (f i) else none).length =
      n - k + 1 := by
  have hfit : ∀ l : List Nat, (∀ i ∈ l, i + k ≤ n) →
      (l.filterMap fun i => if i + k ≤ n then some (f i) else none).length = l.length := by
    intro l
    induction l with
    | nil => simp
    | cons a as iha =>
      intro h
      rw [List.filterMap_cons, if_pos (h a (by simp))]
      simp only [List.length_cons]
      rw [iha fun i hi => h i (by simp [hi])]
  have hmiss : ∀ l : List Nat, (∀ i ∈ l, ¬ (i + k ≤ n)) →
      (l.filterMap fun i => if i + k ≤ n then some (f i) else none) = [] := by
    intro l
    induction l with
    | nil => simp
    | cons a as iha =>
      intro h
      rw [List.filterMap_cons, if_neg (h a (by simp))]
      exact iha fun i hi => h i (by simp [hi])
  have hsplit : List.range n = List.range (n - k + 1) ++ (List.range (k - 1)).map ((n - k + 1) + ·) := by
    rw [← List.range_add]
    congr 1
    omega
  rw [hsplit, List.filterMap_append, List.length_append,
    hfit _ (fun i hi => by have := List.mem_range.mp hi; omega),
    hmiss _ (fun i hi => by
      obtain ⟨j, hj, rfl⟩ := List.mem_map.mp hi
      have := List.mem_range.mp hj
      omega)]
  simp

/-- The numerator of the mean-field split has n - k + 1 windows. -/
theorem get_numerator_length (s : State) (k : Nat) (hk : 1 ≤ k) (hkn : k ≤ s.length) :
    (get_numerator s k).length = s.length - k + 1 := by
  unfold get_numerator
  exact range_window_length s.length k _ hk hkn

/-- Joining a non-empty list of strings starts with the first string. -/
theorem pyJoin_cons_data (sep a : String) (rest : List String) :
    ∃ t, (pyJoin sep (a :: rest)).data = a.data ++ t := by
  cases rest with
  | nil => exact ⟨[], by simp [pyJoin]⟩
  | cons b bs => exact ⟨sep.data ++ (pyJoin sep (b :: bs)).data, by simp [pyJoin]⟩

/-- Every rendered state string starts with the letter P. -/
theorem get_state_data_P (s : State) (k : Nat) : ∃ t, (get_state s k).data = 'P' :: t := by
  unfold get_state
  by_cases h : k = 0 ∨ s.length ≤ k
  · rw [if_pos h]
    exact ⟨_, rfl⟩
  · rw [if_neg h]
    push_neg at h
    have hlen := get_numerator_length s k (by omega) (by omega)
    obtain ⟨x, xs, hxs⟩ : ∃ x xs, get_numerator s k = x :: xs := by
      cases hn : get_numerator s k with
      | nil => rw [hn] at hlen; simp at hlen
      | cons x xs => exact ⟨x, xs, rfl⟩
    simp only [hxs, List.map_cons]
    obtain ⟨t1, ht1⟩ := pyJoin_cons_data " " (get_state_string x) (xs.map get_state_string)
    split
    · exact ⟨_, by rw [String.data_append, String.data_append, String.data_append, ht1]; rfl⟩
    · exact ⟨_, by rw [ht1]; rfl⟩

/-- C8: a create-only or decay-only list with exactly one weighted state
of multiplicity m above one renders as the sign, the numeral m, the
rate, and the state, with no parentheses; a list with two or more
weighted states renders as the sign, the rate, and a parenthesized
plus-joined sum whose sub-states each carry their own multiplicity
prefix. -/
theorem C8_single_multi (key : String) (s : State) (m : Int) (hm : 1 < m) (order : Nat)
    (decay : Bool) (ws : List WeightedState) (hws : 2 ≤ ws.length) :
    format_create_decay_single key [format_state_multiplicity order (s, m)] decay =
      (if decay then "-" else "+") ++ toString m ++ " " ++ get_rate_str key ++ " " ++
        get_state s order ∧
    format_create_decay_single key (ws.map (format_state_multiplicity order)) decay =
      (if decay then "-" else "+") ++ get_rate_str key ++ " (" ++
        pyJoin "+" (ws.map (format_state_multiplicity order)) ++ ")" := by
  constructor
  · have hfsm : format_state_multiplicity order (s, m) = toString m ++ get_state s order := by
      unfold format_state_multiplicity
      rw [if_pos hm]
    obtain ⟨t, ht⟩ := get_state_data_P s order
    have hpr : get_prefactor (toString m ++ get_state s order) = (toString m, get_state s order) :=
      get_prefactor_split _ _ (toString_int_digits m (by omega)) 'P' t ht (by decide)
    have hred : format_create_decay_single key [toString m ++ get_state s order] decay =
        (if decay then "-" else "+") ++ (get_prefactor (toString m ++ get_state s order)).1 ++
          " " ++ get_rate_str key ++ " " ++
          (get_prefactor (toString m ++ get_state s order)).2 := rfl
    rw [hfsm, hred, hpr]
  · obtain ⟨w1, w2, rest, rfl⟩ : ∃ w1 w2 rest, ws = w1 :: w2 :: rest := by
      match ws, hws with
      | w1 :: w2 :: rest, _ => exact ⟨w1, w2, rest, rfl⟩
    rfl

/-- C8 witness: the theorem instantiated at the rate k1, the single
state (("a",0)) with multiplicity 3, order 0, a create clause, and the
two weighted states ((("a",0)), 1) and ((("b",1)), 2). -/
theorem C8_witness :
    format_create_decay_single "k1" [format_state_multiplicity 0 ([(("a" : String), (0 : Int))], 3)] false =
      (if false then "-" else "+") ++ toString (3 : Int) ++ " " ++ get_rate_str "k1" ++ " " ++
        get_state [(("a" : String), (0 : Int))] 0 ∧
    format_create_decay_single "k1"
        (([([(("a" : String), (0 : Int))], 1), ([("b", 1)], 2)] : List WeightedState).map
          (format_state_multiplicity 0)) false =
      (if false then "-" else "+") ++ get_rate_str "k1" ++ " (" ++
        pyJoin "+"
          (([([(("a" : String), (0 : Int))], 1), ([("b", 1)], 2)] : List WeightedState).map
            (format_state_multiplicity 0)) ++ ")" :=
  C8_single_multi "k1" _ 3 (by decide) 0 false _ (by decide)

/-- A filterMap produces no more elements than any test every hit
satisfies counts. -/
theorem length_filterMap_le_countP {α β : Type} (f : α → Option β) (p : α → Bool)
    (h : ∀ a, (f a).isSome = true → p a = true) (l : List α) :
    (l.filterMap f).length ≤ l.countP p := by
  induction l with
  | nil => simp
  | cons a as ih =>
    rw [List.filterMap_cons, List.countP_cons]
    cases hfa : f a with
    | none =>
      cases hpa : p a
      · simpa using ih
      · simp only [if_pos rfl]
        exact le_trans ih (Nat.le_add_right _ _)
    | some b =>
      have hpa : p a = true := h a (by simp [hfa])
      simp only [hpa, if_pos rfl, List.length_cons]
      exact Nat.add_le_add_right ih 1

/-- Counting the indices above i in the range below m. -/
theorem countP_range_gt (i m : Nat) :
    (List.range m).countP (fun j => decide (i < j)) = m - (i + 1) := by
  induction m with
  | zero => simp
  | succ m ih =>
    rw [List.range_succ, List.countP_append, ih, List.countP_cons, List.countP_nil]
    by_cases him : i < m
    · rw [if_pos (by simpa using him)]
      omega
    · rw [if_neg (by simpa using him)]
      omega

/-- A count over the enumeration that looks only at the index equals the
count over the index range. -/
theorem countP_enum_fst {α : Type} (l : List α) (pb : Nat → Bool) :
    l.enum.countP (fun q => pb q.1) = (List.range l.length).countP pb := by
  rw [← List.enum_map_fst l, List.countP_map]
  rfl

/-- The sum of m - (i + 1) over the range below m is m choose 2. -/
theorem sum_range_sub (m : Nat) :
    ((List.range m).map fun i => m - (i + 1)).sum = m.choose 2 := by
  induction m with
  | zero => rfl
  | succ m ih =>
    rw [List.range_succ_eq_map]
    simp only [List.map_cons, List.sum_cons, List.map_map]
    have hmap : (List.range m).map ((fun i => m + 1 - (i + 1)) ∘ Nat.succ) =
        (List.range m).map fun i => m - (i + 1) := by
      apply List.map_congr_left
      intro i _
      simp only [Function.comp]
      omega
    rw [hmap, ih]
    have hch : (m + 1).choose 2 = m.choose 1 + m.choose 2 := Nat.choose_succ_succ m 1
    rw [hch, Nat.choose_one_right]
    omega

/-- The denominator list never exceeds the number of index pairs of the
numerator list, m choose 2. -/
theorem get_denominator_length_le (numer : List State) :
    (get_denominator numer).length ≤ numer.length.choose 2 := by
  unfold get_denominator
  rw [List.length_flatMap]
  have hbound : ∀ p ∈ numer.enum,
      (numer.enum.filterMap fun q =>
        if q.1 ≤ p.1 then none
        else
          let inter := pyIntersect p.2 q.2
          if 0 < inter.length then some inter else none).length ≤
        numer.length - (p.1 + 1) := by
    intro p _
    have hle := length_filterMap_le_countP
      (fun q : Nat × State =>
        if q.1 ≤ p.1 then none
        else
          let inter := pyIntersect p.2 q.2
          if 0 < inter.length then some inter else none)
      (fun q => decide (p.1 < q.1))
      (fun q hq => by
        by_cases hqp : q.1 ≤ p.1
        · have hq3 : ((if q.1 ≤ p.1 then none
              else
                let inter := pyIntersect p.2 q.2
                if 0 < inter.length then some inter else none) :
              Option (List Entry)).isSome = true := hq
          rw [if_pos hqp] at hq3
          simp at hq3
        · exact decide_eq_true (by omega))
      numer.enum
    calc (numer.enum.filterMap fun q =>
          if q.1 ≤ p.1 then none
          else
            let inter := pyIntersect p.2 q.2
            if 0 < inter.length then some inter else none).length
        ≤ numer.enum.countP (fun q => decide (p.1 < q.1)) := hle
      _ = (List.range numer.length).countP (fun j => decide (p.1 < j)) :=
          countP_enum_fst numer (fun j => decide (p.1 < j))
      _ = numer.length - (p.1 + 1) := countP_range_gt _ _
  have hg : ((numer.enum.map fun p => numer.length - (p.1 + 1)).sum) =
      numer.length.choose 2 := by
    rw [show (numer.enum.map fun p => numer.length - (p.1 + 1)) =
        ((numer.enum.map Prod.fst).map fun i => numer.length - (i + 1)) from by
          rw [List.map_map]; rfl,
      List.enum_map_fst]
    exact sum_range_sub numer.length
  exact le_trans (List.sum_le_sum hbound) (le_of_eq hg)

/-- Every denominator factor is the non-empty intersection of a pair of
numerator windows taken at positions i before j. -/
theorem get_denominator_mem (numer : List State) (d : State) (hd : d ∈ get_denominator numer) :
    d ≠ [] ∧ ∃ p ∈ numer.enum, ∃ q ∈ numer.enum, p.1 < q.1 ∧ d = pyIntersect p.2 q.2 := by
  unfold get_denominator at hd
  simp only [List.mem_flatMap, List.mem_filterMap] at hd
  obtain ⟨p, hp, q, hq, hfq⟩ := hd
  by_cases hqp : q.1 ≤ p.1
  · rw [if_pos hqp] at hfq
    exact absurd hfq (by simp)
  · rw [if_neg hqp] at hfq
    by_cases hpos : 0 < (pyIntersect p.2 q.2).length
    · rw [if_pos hpos] at hfq
      have hdq : pyIntersect p.2 q.2 = d := Option.some.inj hfq
      refine ⟨?_, p, hp, q, hq, by omega, hdq.symm⟩
      rw [← hdq]
      intro hnil
      rw [hnil] at hpos
      simp at hpos
    · rw [if_neg hpos] at hfq
      exact absurd hfq (by simp)

/-- C5: for a state of length n and an order k strictly between 0 and n,
the numerator has exactly n - k + 1 windows, the denominator has at most
n - k + 1 choose 2 factors, and every denominator factor is a non-empty
intersection of a pair of numerator windows taken in scan order. -/
theorem C5_mean_field_bounds (state : State) (k : Nat) (h1 : 0 < k) (h2 : k < state.length) :
    (get_numerator state k).length = state.length - k + 1 ∧
    (get_denominator (get_numerator state k)).length ≤ (state.length - k + 1).choose 2 ∧
    ∀ d ∈ get_denominator (get_numerator state k),
      d ≠ [] ∧ ∃ p ∈ (get_numerator state k).enum, ∃ q ∈ (get_numerator state k).enum,
        p.1 < q.1 ∧ d = pyIntersect p.2 q.2 := by
  have hlen := get_numerator_length state k (by omega) (by omega)
  refine ⟨hlen, ?_, fun d hd => get_denominator_mem _ d hd⟩
  have hle := get_denominator_length_le (get_numerator state k)
  rwa [hlen] at hle

/-- C5 witness: the theorem instantiated at the length-three state
(("a",0),("b",1),("c",2)) and order 2. -/
theorem C5_witness :
    (get_numerator [(("a" : String), (0 : Int)), ("b", 1), ("c", 2)] 2).length =
      ([(("a" : String), (0 : Int)), ("b", 1), ("c", 2)] : State).length - 2 + 1 ∧
    (get_denominator (get_numerator [(("a" : String), (0 : Int)), ("b", 1), ("c", 2)] 2)).length ≤
      (([(("a" : String), (0 : Int)), ("b", 1), ("c", 2)] : State).length - 2 + 1).choose 2 ∧
    ∀ d ∈ get_denominator (get_numerator [(("a" : String), (0 : Int)), ("b", 1), ("c", 2)] 2),
      d ≠ [] ∧
        ∃ p ∈ (get_numerator [(("a" : String), (0 : Int)), ("b", 1), ("c", 2)] 2).enum,
          ∃ q ∈ (get_numerator [(("a" : String), (0 : Int)), ("b", 1), ("c", 2)] 2).enum,
            p.1 < q.1 ∧ d = pyIntersect p.2 q.2 :=
  C5_mean_field_bounds _ 2 (by decide) (by decide)

end COOx
